import Mathlib

/-!
Verification of the psshlib API layer (`psshlib/api.py`).

The file embeds the Python source shallowly:

* `PyVal` is the universe of Python values the module manipulates
  (strings, `None`, booleans, integers, tuples, lists); `PyErr` the
  exceptions its code can raise.
* Pure helpers (`_expand_host_port_user`, `_build_call_cmd`,
  `_build_copy_cmd`, `_build_slurp_cmd`, the three output builders) are
  translated function by function.
* The effectful bodies of `call`, `copy` and `slurp` are modelled as
  functions producing a trace of externally visible events
  (directory creation, task submission) together with either a normal
  return, a `sys.exit`, or a raised Python exception.  The filesystem is
  a list of existing paths; the execution engine (`psshlib.manager`,
  not part of the sources under verification) is abstracted by a
  parameter giving the outcome of `manager.run()`.
-/

namespace Pssh

/-- Python exception kinds that the embedded fragments of `psshlib/api.py`
can raise. -/
inductive PyErr where
  | typeError
  | valueError
  | attributeError
  deriving DecidableEq, Repr

/-- Python values, as far as `psshlib/api.py` manipulates them: strings,
`None`, booleans, integers, tuples and lists. -/
inductive PyVal where
  | str (s : String)
  | none
  | bool (b : Bool)
  | int (n : Int)
  | tuple (vs : List PyVal)
  | list (vs : List PyVal)

/-- Python truthiness (`if v:`): empty strings, `None`, `False`, `0` and
empty containers are falsy. -/
def pyTruthy : PyVal → Bool
  | .str s => s != ""
  | .none => false
  | .bool b => b
  | .int n => n != 0
  | .tuple vs => !vs.isEmpty
  | .list vs => !vs.isEmpty

/-- Python `%s` rendering of a value.  The embedded code only ever formats
strings (hosts, directories); the container cases are schematic. -/
def pyStr : PyVal → String
  | .str s => s
  | .none => "None"
  | .bool b => cond b "True" "False"
  | .int n => toString n
  | .tuple _ => "<tuple>"
  | .list _ => "<list>"

/-- Python iteration (`for x in v`): tuples and lists yield their
elements, a string yields its characters as one-character strings,
anything else raises `TypeError`. -/
def pyIter : PyVal → Except PyErr (List PyVal)
  | .tuple vs => .ok vs
  | .list vs => .ok vs
  | .str s => .ok (s.data.map (fun c => .str (String.singleton c)))
  | _ => .error .typeError

/-- Python unpacking `host, port, user = v`: a 3-tuple (or 3-list, or
3-character string) unpacks; other iterables raise `ValueError`,
non-iterables `TypeError`. -/
def unpack3 : PyVal → Except PyErr (PyVal × PyVal × PyVal)
  | .tuple [a, b, c] => .ok (a, b, c)
  | .tuple _ => .error .valueError
  | .list [a, b, c] => .ok (a, b, c)
  | .list _ => .error .valueError
  | .str s =>
    match s.data with
    | [a, b, c] => .ok (.str (String.singleton a), .str (String.singleton b),
                        .str (String.singleton c))
    | _ => .error .valueError
  | _ => .error .typeError

/-- Model of `_expand_host_port_user` (api.py lines 65-78), translated exactly as
written: the function `return`s from inside its `for` loop, so it
inspects only the first element of the input and returns a single value
(for an empty input it falls off the loop and returns `None`).
A bare string first element yields the tuple `(v, None, None)`; a
1-tuple `(v[0], None, None)`; a 2-tuple `(v[0], v[1], None)`; any other
tuple or list is returned unchanged; `len()` of a non-sequence raises
`TypeError`. -/
def expand_host_port_user : List PyVal → Except PyErr PyVal
  | [] => .ok .none
  | v :: _ =>
    match v with
    | .str s => .ok (.tuple [.str s, .none, .none])
    | .tuple [a] => .ok (.tuple [a, .none, .none])
    | .tuple [a, b] => .ok (.tuple [a, b, .none])
    | .tuple vs => .ok (.tuple vs)
    | .list [a] => .ok (.tuple [a, .none, .none])
    | .list [a, b] => .ok (.tuple [a, b, .none])
    | .list vs => .ok (.list vs)
    | _ => .error .typeError

/-- Modelled from the spec: the host-list normalization that
`_expand_host_port_user`'s own docstring and spec section 6 promise —
"Input: list containing hostnames, (host, port)-tuples or
(host, port, user)-tuples.  Output: list of (host, port, user)-tuples",
one full triple per input element, in input order, missing components
filled with `None`. -/
def expand_host_port_user_doc (lst : List PyVal) : List (PyVal × PyVal × PyVal) :=
  lst.map fun v =>
    match v with
    | .str s => (.str s, .none, .none)
    | .tuple [a] => (a, .none, .none)
    | .tuple [a, b] => (a, b, .none)
    | .tuple [a, b, c] => (a, b, c)
    | w => (w, .none, .none)

/-- C1: the claim says `_expand_host_port_user` produces one full
(host, port, user) triple per input element, in input order.  The code
instead `return`s from inside its loop: on the two-host input
`["a", "b"]` it yields the single bare triple `("a", None, None)` —
the second host is dropped and the result is not a list of triples at
all — whereas the normalization promised by its docstring and the spec
yields one triple per host. -/
theorem expand_first_element_only_bug :
    expand_host_port_user [PyVal.str "a", PyVal.str "b"]
      = Except.ok (PyVal.tuple [PyVal.str "a", PyVal.none, PyVal.none])
    ∧ expand_host_port_user_doc [PyVal.str "a", PyVal.str "b"]
      = [(PyVal.str "a", PyVal.none, PyVal.none),
         (PyVal.str "b", PyVal.none, PyVal.none)] :=
  ⟨rfl, rfl⟩

/-! ## Options objects and attribute access

Python resolves `opts.name` dynamically; an `Options` instance provides
exactly the class attributes written in api.py lines 45-62.  We model an
options object as an association list from attribute names to values and
attribute lookup as a fallible operation. -/

/-- An options object: attribute names mapped to their values. -/
def Opts : Type := List (String × PyVal)

/-- Attribute access `opts.name`: returns the attribute's value, or raises
`AttributeError` when the object does not define it. -/
def getattr (o : Opts) (n : String) : Except PyErr PyVal :=
  match List.lookup n o with
  | some v => .ok v
  | none => .error .attributeError

/-- Modelled from the spec: `DEFAULT_PARALLELISM` is imported from
`psshlib.cli`, which is not among the sources; spec section 6 gives the
default concurrency limit as "a small constant, e.g. 32". -/
def DEFAULT_PARALLELISM : Int := 32

/-- Modelled from the spec: `DEFAULT_TIMEOUT` is imported from
`psshlib.cli`, which is not among the sources; spec section 6 gives the
default per-task timeout as "a small constant, e.g. 60". -/
def DEFAULT_TIMEOUT : Int := 60

/-- The attributes (with their default values) of the public `Options`
class, api.py lines 45-62.  Note that `options`, `extra` and `localdir`
are *not* among them. -/
def defaultOptions : Opts :=
  [("limit", .int DEFAULT_PARALLELISM),
   ("timeout", .int DEFAULT_TIMEOUT),
   ("askpass", .bool false),
   ("outdir", .none),
   ("errdir", .none),
   ("ssh_options", .list []),
   ("ssh_extra", .list []),
   ("verbose", .bool false),
   ("quiet", .bool false),
   ("print_out", .bool false),
   ("inline", .bool true),
   ("inline_stdout", .bool false),
   ("input_stream", .none),
   ("recursive", .bool true)]

/-! ## Command builders -/

/-- Model of `_build_call_cmd` (api.py lines 102-117): builds the ssh argument
vector.  The two `pyIter` calls are the `for opt in options` loop and
`cmd.extend(extra)`; both are skipped when the corresponding value is
falsy, exactly as the Python `if` guards do. -/
def build_call_cmd (host port user cmdline options extra : PyVal) :
    Except PyErr (List String) := do
  let base := ["ssh", pyStr host,
               "-o", "NumberOfPasswordPrompts=1",
               "-o", "SendEnv=PSSH_NODENUM PSSH_HOST"]
  let cmd ← if pyTruthy options then do
      let opts_ ← pyIter options
      pure (opts_.foldl (fun c opt => c ++ ["-o", pyStr opt]) base)
    else pure base
  let cmd := if pyTruthy user then cmd ++ ["-l", pyStr user] else cmd
  let cmd := if pyTruthy port then cmd ++ ["-p", pyStr port] else cmd
  let cmd ← if pyTruthy extra then do
      let xs ← pyIter extra
      pure (cmd ++ xs.map pyStr)
    else pure cmd
  let cmd := if pyTruthy cmdline then cmd ++ [pyStr cmdline] else cmd
  pure cmd

/-- Model of `_build_copy_cmd` (api.py lines 172-188): builds the scp argument
vector for a push; reads `opts.options`, `opts.recursive` and
`opts.extra`, in that order. -/
def build_copy_cmd (h p u : PyVal) (src : List String) (dst : String)
    (o : Opts) : Except PyErr (List String) := do
  let base := ["scp", "-qC"]
  let op ← getattr o "options"
  let cmd ← if pyTruthy op then do
      let opts_ ← pyIter op
      pure (opts_.foldl (fun c opt => c ++ ["-o", pyStr opt]) base)
    else pure base
  let cmd := if pyTruthy p then cmd ++ ["-P", pyStr p] else cmd
  let rcv ← getattr o "recursive"
  let cmd := if pyTruthy rcv then cmd ++ ["-r"] else cmd
  let ex ← getattr o "extra"
  let cmd ← if pyTruthy ex then do
      let xs ← pyIter ex
      pure (cmd ++ xs.map pyStr)
    else pure cmd
  let cmd := cmd ++ src
  let cmd := if pyTruthy u
    then cmd ++ [pyStr u ++ "@" ++ pyStr h ++ ":" ++ dst]
    else cmd ++ [pyStr h ++ ":" ++ dst]
  pure cmd

/-- Model of `_build_slurp_cmd` (api.py lines 257-273): builds the scp argument
vector for a pull; reads `opts.options`, `opts.recursive` and
`opts.extra`, in that order. -/
def build_slurp_cmd (h p u : PyVal) (src dst : String)
    (o : Opts) : Except PyErr (List String) := do
  let base := ["scp", "-qC"]
  let op ← getattr o "options"
  let cmd ← if pyTruthy op then do
      let opts_ ← pyIter op
      pure (opts_.foldl (fun c opt => c ++ ["-o", pyStr opt]) base)
    else pure base
  let cmd := if pyTruthy p then cmd ++ ["-P", pyStr p] else cmd
  let rcv ← getattr o "recursive"
  let cmd := if pyTruthy rcv then cmd ++ ["-r"] else cmd
  let ex ← getattr o "extra"
  let cmd ← if pyTruthy ex then do
      let xs ← pyIter ex
      pure (cmd ++ xs.map pyStr)
    else pure cmd
  let cmd := if pyTruthy u
    then cmd ++ [pyStr u ++ "@" ++ pyStr h ++ ":" ++ src]
    else cmd ++ [pyStr h ++ ":" ++ src]
  let cmd := cmd ++ [dst]
  pure cmd

/-! ## Finished tasks and the output builders

`Task` objects come from `psshlib.task` (not among the sources); the
builders only read the five outcome fields below, which the spec's data
model (section 3) describes: host identity, the ordered failure-reason
list (empty iff the task succeeded), exit status, and the two output
buffers (`None`, or the accumulated stream content, when inline capture
was requested). -/

/-- The outcome fields of a finished `Task` as consumed by the result
builders in api.py. -/
structure CTask where
  host : String
  failures : List String
  exitstatus : Int
  outputbuffer : Option String
  errorbuffer : Option String
  deriving DecidableEq, Repr

/-- Python `a or b` where `a` is a buffer (`None` or a string) and `b`
a fallback: the buffer is kept only when truthy (non-`None` and
non-empty). -/
def pyOrS (a b : Option String) : Option String :=
  match a with
  | some s => if s = "" then b else some s
  | none => b

/-- A value of the public result mapping: either an `Error` object
wrapping a message, or the `(exitstatus, stdout, stderr)` tuple. -/
inductive ResValue where
  | err (msg : String)
  | ok (rc : Int) (outLoc : Option String) (errLoc : Option String)
  deriving DecidableEq, Repr

/-- The per-task entry computed by each builder's `result` loop body
(api.py lines 92-98, 162-168, 234-241): an `Error` joining the failure
reasons with `", "` when there are any, otherwise the tuple
`(task.exitstatus, task.outputbuffer or manager.outdir,
task.errorbuffer or manager.errdir)`. -/
def taskEntry (outdir errdir : Option String) (t : CTask) : ResValue :=
  match t.failures with
  | [] => .ok t.exitstatus (pyOrS t.outputbuffer outdir) (pyOrS t.errorbuffer errdir)
  | fs => .err (String.intercalate ", " fs)

/-- In-place update of one association-list entry: the entry whose key
is `k` becomes `(k, v)`, others are unchanged. -/
def updateEntry (k : String) (v : ResValue) (p : String × ResValue) :
    String × ResValue :=
  if p.1 == k then (k, v) else p

/-- Assignment `ret[key] = v` on a Python dict kept as an insertion-ordered
association list: an existing key is updated in place, a new key is
appended. -/
def dictSet (d : List (String × ResValue)) (k : String) (v : ResValue) :
    List (String × ResValue) :=
  if d.any (fun p => p.1 == k) then d.map (updateEntry k v)
  else d ++ [(k, v)]

/-- Lookup `ret[key]` on the same representation. -/
def dictGet? (d : List (String × ResValue)) (k : String) : Option ResValue :=
  (d.find? (fun p => p.1 == k)).map Prod.snd

/-- Model of `_CallOutputBuilder.result` (api.py lines 89-99): folds the finished
tasks, in completion order, into a dict keyed by host. -/
def CallOutputBuilder_result (tasks : List CTask) (outdir errdir : Option String) :
    List (String × ResValue) :=
  tasks.foldl (fun ret t => dictSet ret t.host (taskEntry outdir errdir t)) []

/-- Model of `_CopyOutputBuilder.result` (api.py lines 160-169): identical loop to
the call builder's. -/
def CopyOutputBuilder_result (tasks : List CTask) (outdir errdir : Option String) :
    List (String × ResValue) :=
  tasks.foldl (fun ret t => dictSet ret t.host (taskEntry outdir errdir t)) []

/-- Model of `_SlurpOutputBuilder.result` (api.py lines 232-242): identical loop
again (the code carries a `TODO: save name of output file in Task`). -/
def SlurpOutputBuilder_result (tasks : List CTask) (outdir errdir : Option String) :
    List (String × ResValue) :=
  tasks.foldl (fun ret t => dictSet ret t.host (taskEntry outdir errdir t)) []

/-! ## Effect traces of the three public operations

`call`, `copy` and `slurp` perform externally visible effects in a fixed
order: directory creation (`os.makedirs` / `os.mkdir`) and task
submission (`manager.add_task`).  We record them as events; the
filesystem is the list of existing paths.  A submitted task's host is
recorded rendered as a string (`pyStr`), which is how every later
consumer of the host formats it. -/

/-- Externally visible events of an api.py operation, in program order. -/
inductive Event where
  | makedirs (path : String)
  | mkdir (path : String)
  | addTask (host : String)
  deriving DecidableEq, Repr

/-- Step for `if opts.outdir and not os.path.exists(opts.outdir):
os.makedirs(opts.outdir)` — one conditional directory creation, threaded
through the filesystem. -/
def mkdirsStep (fs : List String) (v : PyVal) : List Event × List String :=
  if pyTruthy v ∧ pyStr v ∉ fs then ([.makedirs (pyStr v)], pyStr v :: fs)
  else ([], fs)

/-- The attribute reads performed by evaluating the keyword arguments of
`Task(...)` (api.py lines 139-145, 211-217, 301-307): `input_stream`,
`verbose`, `quiet`, `print_out`, `inline`, `inline_stdout`. -/
def taskCtorReads (o : Opts) : Except PyErr Unit := do
  let _ ← getattr o "input_stream"
  let _ ← getattr o "verbose"
  let _ ← getattr o "quiet"
  let _ ← getattr o "print_out"
  let _ ← getattr o "inline"
  let _ ← getattr o "inline_stdout"
  pure ()

/-- The attribute reads performed by evaluating the keyword arguments of
`Manager(...)` (api.py lines 129-133, 203-207, 289-293): `limit`,
`timeout`, `askpass`, `outdir`, `errdir`. -/
def managerCtorReads (o : Opts) : Except PyErr Unit := do
  let _ ← getattr o "limit"
  let _ ← getattr o "timeout"
  let _ ← getattr o "askpass"
  let _ ← getattr o "outdir"
  let _ ← getattr o "errdir"
  pure ()

/-- The value iterated by the task loops:
`for host, port, user in _expand_host_port_user(hosts)` first calls the
expansion, then asks the result for an iterator. -/
def pyExpandIter (hosts : List PyVal) : Except PyErr (List PyVal) := do
  pyIter (← expand_host_port_user hosts)

/-- The shared shape of the three task-submission loops: each iteration
unpacks the current element into `(host, port, user)`, runs the loop
body up to the `Task` construction (the `step`, which performs the
body's attribute reads and command building), and submits the task.
The trace stops at the first raised exception, as the Python loop
does. -/
def taskLoop (step : PyVal → PyVal → PyVal → Except PyErr (List String)) :
    List PyVal → List Event × Option PyErr
  | [] => ([], none)
  | it :: rest =>
    match unpack3 it with
    | .error e => ([], some e)
    | .ok (h, p, u) =>
      match step h p u with
      | .error e => ([], some e)
      | .ok _ =>
        let (evs, errv) := taskLoop step rest
        (Event.addTask (pyStr h) :: evs, errv)

/-- One iteration of `call`'s loop body before `add_task` (api.py lines
136-145): read `opts.ssh_options` and `opts.ssh_extra`, build the ssh
command, evaluate the `Task` constructor arguments. -/
def callIterStep (o : Opts) (cmdline h p u : PyVal) : Except PyErr (List String) := do
  let so ← getattr o "ssh_options"
  let se ← getattr o "ssh_extra"
  let cmd ← build_call_cmd h p u cmdline so se
  let _ ← taskCtorReads o
  pure cmd

/-- One iteration of `copy`'s loop body before `add_task` (api.py lines
210-217). -/
def copyIterStep (o : Opts) (src : List String) (dst : String) (h p u : PyVal) :
    Except PyErr (List String) := do
  let cmd ← build_copy_cmd h p u src dst o
  let _ ← taskCtorReads o
  pure cmd

/-- One iteration of `slurp`'s loop body before `add_task` (api.py lines
296-307): read `opts.localdir`, form the per-host local path, build the
scp command, evaluate the `Task` constructor arguments. -/
def slurpIterStep (o : Opts) (src dst : String) (h p u : PyVal) :
    Except PyErr (List String) := do
  let ld ← getattr o "localdir"
  let localpath := if pyTruthy ld then pyStr ld ++ "/" ++ pyStr h ++ "/" ++ dst
                   else pyStr h ++ "/" ++ dst
  let cmd ← build_slurp_cmd h p u src localpath o
  let _ ← taskCtorReads o
  pure cmd

/-- The common prefix of `call`, `copy` and `slurp` after any
pull-specific local-directory work: conditionally create `opts.outdir`
and `opts.errdir`, construct the `Manager`, then run the task loop.
Returns the event trace and the exception that aborted the prefix, if
any. -/
def stdPre (o : Opts) (fs : List String) (hosts : List PyVal)
    (step : PyVal → PyVal → PyVal → Except PyErr (List String)) :
    List Event × Option PyErr :=
  match getattr o "outdir" with
  | .error e => ([], some e)
  | .ok od =>
    let (evs1, fs1) := mkdirsStep fs od
    match getattr o "errdir" with
    | .error e => (evs1, some e)
    | .ok ed =>
      let (evs2, _fs2) := mkdirsStep fs1 ed
      match managerCtorReads o with
      | .error e => (evs1 ++ evs2, some e)
      | .ok _ =>
        match pyExpandIter hosts with
        | .error e => (evs1 ++ evs2, some e)
        | .ok items =>
          let (evs3, errv) := taskLoop step items
          (evs1 ++ evs2 ++ evs3, errv)

/-- The pre-run phase of `call(hosts, cmdline, opts)` (api.py lines
125-146). -/
def callPre (o : Opts) (fs : List String) (hosts : List PyVal) (cmdline : PyVal) :
    List Event × Option PyErr :=
  stdPre o fs hosts (callIterStep o cmdline)

/-- The pre-run phase of `copy(hosts, src, dst, opts)` (api.py lines
199-218). -/
def copyPre (o : Opts) (fs : List String) (hosts : List PyVal)
    (src : List String) (dst : String) : List Event × Option PyErr :=
  stdPre o fs hosts (copyIterStep o src dst)

/-- The per-host body of `_slurp_make_local_dirs`'s loop (api.py lines
248-254): unpack the element, read `opts.localdir`, form the directory
name, `os.mkdir` it when absent. -/
def slurpLocalDirsLoop (o : Opts) (fs : List String) :
    List PyVal → List Event × List String × Option PyErr
  | [] => ([], fs, none)
  | it :: rest =>
    match unpack3 it with
    | .error e => ([], fs, some e)
    | .ok (h, _, _) =>
      match getattr o "localdir" with
      | .error e => ([], fs, some e)
      | .ok ld =>
        let dirname := if pyTruthy ld then pyStr ld ++ "/" ++ pyStr h
                       else pyStr h
        let (evs1, fs1) := if dirname ∈ fs then ([], fs)
                           else ([Event.mkdir dirname], dirname :: fs)
        let (evs2, fs2, errv) := slurpLocalDirsLoop o fs1 rest
        (evs1 ++ evs2, fs2, errv)

/-- Model of `_slurp_make_local_dirs(hosts, dst, opts)` (api.py lines 245-254):
create the destination root when absent, then one local directory per
element produced by the (buggy) host expansion. -/
def slurp_make_local_dirs (o : Opts) (fs : List String) (hosts : List PyVal)
    (dst : String) : List Event × List String × Option PyErr :=
  let (evs0, fs0) := if dst ∈ fs then ([], fs)
                     else ([Event.makedirs dst], dst :: fs)
  match pyExpandIter hosts with
  | .error e => (evs0, fs0, some e)
  | .ok items =>
    let (evs, fs1, errv) := slurpLocalDirsLoop o fs0 items
    (evs0 ++ evs, fs1, errv)

/-- The pre-run phase of `slurp(hosts, src, dst, opts)` (api.py lines
284-308): the local-directory pass runs first, then the standard
prefix. -/
def slurpPre (o : Opts) (fs : List String) (hosts : List PyVal)
    (src dst : String) : List Event × Option PyErr :=
  let (evs0, fs0, err0) := slurp_make_local_dirs o fs hosts dst
  match err0 with
  | some e => (evs0, some e)
  | none =>
    let (evs, errv) := stdPre o fs0 hosts (slurpIterStep o src dst)
    (evs0 ++ evs, errv)

/-! ## The try/except around `manager.run()` -/

/-- How an api.py operation terminates, seen from its caller: a normal
return of the result mapping, process termination via `sys.exit`, or a
raised Python exception. -/
inductive ApiResult where
  | ret (m : List (String × ResValue))
  | exits (code : Nat)
  | raises (e : PyErr)
  deriving DecidableEq, Repr

/-- The tail of each operation (api.py lines 147-150, 219-222, 309-312):
`try: return manager.run()` / `except FatalError: sys.exit(1)`.  The
engine's outcome — a normal result mapping or a raised `FatalError` —
is the `Except Unit` argument (the engine itself, `psshlib.manager`, is
outside the verified sources; the spec says `run` either returns the
aggregator's mapping or raises the fatal-abort signal). -/
def run_with_fatal_guard (r : Except Unit (List (String × ResValue))) : ApiResult :=
  match r with
  | .ok m => .ret m
  | .error _ => .exits 1

/-- The whole of `call(hosts, cmdline, opts)`: the pre-run phase, then
the guarded engine run (reached only when no exception was raised). -/
def callModel (o : Opts) (fs : List String) (hosts : List PyVal) (cmdline : PyVal)
    (r : Except Unit (List (String × ResValue))) : List Event × ApiResult :=
  let (evs, errv) := callPre o fs hosts cmdline
  match errv with
  | some e => (evs, .raises e)
  | none => (evs, run_with_fatal_guard r)

/-- The whole of `copy(hosts, src, dst, opts)`. -/
def copyModel (o : Opts) (fs : List String) (hosts : List PyVal)
    (src : List String) (dst : String)
    (r : Except Unit (List (String × ResValue))) : List Event × ApiResult :=
  let (evs, errv) := copyPre o fs hosts src dst
  match errv with
  | some e => (evs, .raises e)
  | none => (evs, run_with_fatal_guard r)

/-- The whole of `slurp(hosts, src, dst, opts)`. -/
def slurpModel (o : Opts) (fs : List String) (hosts : List PyVal)
    (src dst : String)
    (r : Except Unit (List (String × ResValue))) : List Event × ApiResult :=
  let (evs, errv) := slurpPre o fs hosts src dst
  match errv with
  | some e => (evs, .raises e)
  | none => (evs, run_with_fatal_guard r)

/-! ## Auxiliary definitions used by the statements below -/

/-- An `Options` object as `pslurp` would configure it minimally: the
public defaults plus a `localdir` attribute left at `None`. -/
def slurpOptions : Opts := ("localdir", PyVal.none) :: defaultOptions

/-- An `Options` object with output directories configured (and a
`localdir` for pull): the public defaults plus `outdir`/`errdir` set. -/
def outOptions : Opts :=
  ("outdir", PyVal.str "odir") :: ("errdir", PyVal.str "edir") ::
    ("localdir", PyVal.none) :: defaultOptions

/-- A host list on which the (buggy) expansion happens to behave: its
single element is a tuple of three well-formed (host, port, user)
triples, so `_expand_host_port_user` returns it unchanged and every
element of the task loop unpacks. -/
def goodHosts : List PyVal :=
  [PyVal.tuple [PyVal.tuple [PyVal.str "h1", PyVal.none, PyVal.none],
                PyVal.tuple [PyVal.str "h2", PyVal.none, PyVal.none],
                PyVal.tuple [PyVal.str "h3", PyVal.none, PyVal.none]]]

/-- The trace records the creation of directory `p` (via `os.makedirs`
or `os.mkdir`). -/
def createsDir (tr : List Event) (p : String) : Prop :=
  Event.makedirs p ∈ tr ∨ Event.mkdir p ∈ tr

/-- The directory-creation contract of an operation's event trace, for
configured output directories `od` (stdout) and `ed` (stderr) with the
filesystem initially `fs`: a configured-and-absent directory is created,
an existing path is never created again, and every `makedirs` precedes
every task submission. -/
def dirBehavior (tr : List Event) (fs : List String) (od ed : PyVal) : Prop :=
  (pyTruthy od → pyStr od ∉ fs → createsDir tr (pyStr od))
  ∧ (pyTruthy ed → pyStr ed ∉ fs → createsDir tr (pyStr ed))
  ∧ (∀ p ∈ fs, ¬ createsDir tr p)
  ∧ (∀ l1 p l2, tr = l1 ++ Event.makedirs p :: l2 → ∀ h, Event.addTask h ∉ l1)


/-- Injection of an optional string into the Python value universe
(`None` or a `str`), matching how `call`'s arguments arrive. -/
def pyOfOpt : Option String → PyVal
  | some s => .str s
  | none => .none

/-! ## Dictionary and fold lemmas -/

theorem updateEntry_of_beq (k : String) (v : ResValue) (p : String × ResValue)
    (hq : (p.1 == k) = true) : updateEntry k v p = (k, v) := by
  unfold updateEntry; rw [hq]; rfl

theorem updateEntry_of_bne (k : String) (v : ResValue) (p : String × ResValue)
    (hq : (p.1 == k) = false) : updateEntry k v p = p := by
  unfold updateEntry; rw [hq]; rfl

theorem dictGet?_cons (q : String × ResValue) (d : List (String × ResValue))
    (k : String) :
    dictGet? (q :: d) k = if q.1 == k then some q.2 else dictGet? d k := by
  cases h : (q.1 == k) <;> simp [dictGet?, List.find?_cons, h]

theorem dictSet_cons_ne (q : String × ResValue) (d : List (String × ResValue))
    (k : String) (v : ResValue) (hq : (q.1 == k) = false) :
    dictSet (q :: d) k v = q :: dictSet d k v := by
  unfold dictSet
  rw [List.any_cons, hq, Bool.false_or]
  by_cases h : (d.any fun p => p.1 == k) = true
  · rw [h, if_pos rfl, if_pos rfl, List.map_cons, updateEntry_of_bne k v q hq]
  · rw [eq_false_of_ne_true h, if_neg (by simp), if_neg (by simp), List.cons_append]

theorem dictGet?_dictSet_self (d : List (String × ResValue)) (k : String)
    (v : ResValue) : dictGet? (dictSet d k v) k = some v := by
  induction d with
  | nil => simp [dictSet, dictGet?]
  | cons q ds ih =>
    cases hq : (q.1 == k) with
    | true =>
      unfold dictSet
      rw [List.any_cons, hq, Bool.true_or, if_pos rfl, List.map_cons,
          updateEntry_of_beq k v q hq, dictGet?_cons]
      simp
    | false =>
      rw [dictSet_cons_ne q ds k v hq, dictGet?_cons, hq]
      simpa using ih

theorem dictGet?_map_update (d : List (String × ResValue)) (k kk : String)
    (v : ResValue) (hkk : (k == kk) = false) :
    dictGet? (d.map (updateEntry k v)) kk = dictGet? d kk := by
  induction d with
  | nil => rfl
  | cons q ds ih =>
    rw [List.map_cons, dictGet?_cons, dictGet?_cons]
    cases hq : (q.1 == k) with
    | true =>
      rw [updateEntry_of_beq k v q hq]
      have hq1 : q.1 = k := eq_of_beq hq
      have : (q.1 == kk) = false := by rw [hq1]; exact hkk
      simp only [this, hkk, ih]
      rfl
    | false =>
      rw [updateEntry_of_bne k v q hq, ih]

theorem dictGet?_append_single (d : List (String × ResValue)) (k kk : String)
    (v : ResValue) (hkk : (k == kk) = false) :
    dictGet? (d ++ [(k, v)]) kk = dictGet? d kk := by
  induction d with
  | nil => simp [dictGet?, hkk]
  | cons q ds ih =>
    rw [List.cons_append, dictGet?_cons, dictGet?_cons, ih]

theorem dictGet?_dictSet_ne (d : List (String × ResValue)) (k kk : String)
    (v : ResValue) (hkk : (k == kk) = false) :
    dictGet? (dictSet d k v) kk = dictGet? d kk := by
  unfold dictSet
  by_cases h : (d.any fun p => p.1 == k) = true
  · rw [h, if_pos rfl, dictGet?_map_update d k kk v hkk]
  · rw [eq_false_of_ne_true h, if_neg (by simp), dictGet?_append_single d k kk v hkk]

theorem getLast?_cons_getD (a : CTask) (l : List CTask) :
    (a :: l).getLast? = some (l.getLast?.getD a) := by
  induction l generalizing a with
  | nil => rfl
  | cons b l ih =>
    rw [List.getLast?_cons_cons, ih b]
    cases h : l.getLast? <;> simp [h, ih]

theorem foldl_dictSet_getLast (f : CTask → ResValue) (ts : List CTask) :
    ∀ (init : List (String × ResValue)) (k : String),
      dictGet? (ts.foldl (fun d t => dictSet d t.host (f t)) init) k =
        match (ts.filter (fun t => t.host == k)).getLast? with
        | some t => some (f t)
        | none => dictGet? init k := by
  induction ts with
  | nil => intro init k; rfl
  | cons t ts ih =>
    intro init k
    rw [List.foldl_cons, ih]
    cases ht : (t.host == k) with
    | true =>
      rw [List.filter_cons, ht, if_pos rfl, getLast?_cons_getD]
      cases hl : (ts.filter (fun u => u.host == k)).getLast? with
      | some u => simp [hl]
      | none =>
        have hk : t.host = k := eq_of_beq ht
        simp only [hl, Option.getD_none]
        rw [← hk, dictGet?_dictSet_self]
    | false =>
      rw [List.filter_cons, ht, if_neg (by simp)]
      cases hl : (ts.filter (fun u => u.host == k)).getLast? with
      | some u => simp [hl]
      | none => simp only [hl, dictGet?_dictSet_ne init t.host k (f t) ht]


theorem keys_map_update (d : List (String × ResValue)) (k : String) (v : ResValue) :
    (d.map (updateEntry k v)).map Prod.fst = d.map Prod.fst := by
  induction d with
  | nil => rfl
  | cons q ds ih =>
    rw [List.map_cons, List.map_cons, List.map_cons, ih]
    cases hq : (q.1 == k) with
    | true =>
      rw [updateEntry_of_beq k v q hq]
      have : k = q.1 := (eq_of_beq hq).symm
      rw [← this]
    | false => rw [updateEntry_of_bne k v q hq]

theorem not_mem_keys_of_any_eq_false (d : List (String × ResValue)) (k : String)
    (h : (d.any fun p => p.1 == k) = false) : k ∉ d.map Prod.fst := by
  intro hmem
  rcases List.mem_map.mp hmem with ⟨p, hp, hpk⟩
  rw [List.any_eq_false] at h
  exact h p hp (by simp [hpk])

theorem dictSet_keys_nodup (d : List (String × ResValue)) (k : String)
    (v : ResValue) (h : (d.map Prod.fst).Nodup) :
    ((dictSet d k v).map Prod.fst).Nodup := by
  unfold dictSet
  by_cases ha : (d.any fun p => p.1 == k) = true
  · rw [ha, if_pos rfl, keys_map_update]; exact h
  · rw [eq_false_of_ne_true ha, if_neg (by simp), List.map_append]
    have hk : k ∉ d.map Prod.fst :=
      not_mem_keys_of_any_eq_false d k (eq_false_of_ne_true ha)
    simp [List.nodup_append, h, hk]

theorem foldl_dictSet_keys_nodup (f : CTask → ResValue) (ts : List CTask) :
    ∀ init : List (String × ResValue), (init.map Prod.fst).Nodup →
      (((ts.foldl (fun d t => dictSet d t.host (f t)) init)).map Prod.fst).Nodup := by
  induction ts with
  | nil => intro init h; exact h
  | cons t ts ih =>
    intro init h
    rw [List.foldl_cons]
    exact ih _ (dictSet_keys_nodup init t.host (f t) h)

theorem getLast?_all_eq (t : CTask) :
    ∀ l : List CTask, l ≠ [] → (∀ x ∈ l, x = t) → l.getLast? = some t := by
  intro l
  induction l with
  | nil => intro h; exact absurd rfl h
  | cons a l ih =>
    intro _ hall
    rw [getLast?_cons_getD]
    cases l with
    | nil => simp [hall a (List.mem_cons_self a [])]
    | cons b l2 =>
      rw [ih (by simp) (fun x hx => hall x (List.mem_cons_of_mem a hx))]
      rfl


/-- C10: each result builder folds its finished-task list, in completion
order, into an insertion-ordered dict: duplicate hosts collapse to a
single key (the key lists are duplicate-free) and the looked-up entry
for a host is that of the *last* finished task carrying that host —
last-writer-wins. -/
theorem builders_last_writer_wins (tasks : List CTask)
    (outdir errdir : Option String) (k : String) :
    (((CallOutputBuilder_result tasks outdir errdir).map Prod.fst).Nodup
      ∧ dictGet? (CallOutputBuilder_result tasks outdir errdir) k
          = ((tasks.filter (fun t => t.host == k)).getLast?).map (taskEntry outdir errdir))
    ∧ (((CopyOutputBuilder_result tasks outdir errdir).map Prod.fst).Nodup
      ∧ dictGet? (CopyOutputBuilder_result tasks outdir errdir) k
          = ((tasks.filter (fun t => t.host == k)).getLast?).map (taskEntry outdir errdir))
    ∧ (((SlurpOutputBuilder_result tasks outdir errdir).map Prod.fst).Nodup
      ∧ dictGet? (SlurpOutputBuilder_result tasks outdir errdir) k
          = ((tasks.filter (fun t => t.host == k)).getLast?).map (taskEntry outdir errdir)) := by
  have hnodup := foldl_dictSet_keys_nodup (taskEntry outdir errdir) tasks [] (by simp)
  have hget := foldl_dictSet_getLast (taskEntry outdir errdir) tasks [] k
  have hres : dictGet? (tasks.foldl
      (fun d t => dictSet d t.host (taskEntry outdir errdir t)) []) k
        = ((tasks.filter (fun t => t.host == k)).getLast?).map (taskEntry outdir errdir) := by
    rw [hget]
    cases hl : (tasks.filter (fun t => t.host == k)).getLast? <;> simp [hl, dictGet?]
  exact ⟨⟨hnodup, hres⟩, ⟨hnodup, hres⟩, ⟨hnodup, hres⟩⟩

/-- The entry the call builder produces for a task that is the only
finished task with its host. -/
theorem builder_entry_of_unique (tasks : List CTask)
    (outdir errdir : Option String) (t : CTask) (hmem : t ∈ tasks)
    (huniq : ∀ u ∈ tasks, u.host = t.host → u = t) :
    dictGet? (CallOutputBuilder_result tasks outdir errdir) t.host
      = some (taskEntry outdir errdir t) := by
  have hfil : (tasks.filter (fun u => u.host == t.host)).getLast? = some t := by
    apply getLast?_all_eq
    · exact List.ne_nil_of_mem (List.mem_filter.mpr ⟨hmem, by simp⟩)
    · intro x hx
      rcases List.mem_filter.mp hx with ⟨hx1, hx2⟩
      exact huniq x hx1 (by simpa using hx2)
  unfold CallOutputBuilder_result
  rw [foldl_dictSet_getLast (taskEntry outdir errdir) tasks [] t.host, hfil]

/-- C3: for a finished task (unique for its host), the builder maps its
host to `Error(", ".join(failures))` when the failure list is non-empty
and to the tuple `(exitstatus, outputbuffer or outdir, errorbuffer or
errdir)` when it is empty.  The builder is a total function: per-host
failure is a value in the mapping, never a raised exception. -/
theorem builder_error_value_or_triple (tasks : List CTask)
    (outdir errdir : Option String) (t : CTask) (hmem : t ∈ tasks)
    (huniq : ∀ u ∈ tasks, u.host = t.host → u = t) :
    dictGet? (CallOutputBuilder_result tasks outdir errdir) t.host
      = some (match t.failures with
          | [] => ResValue.ok t.exitstatus (pyOrS t.outputbuffer outdir)
                    (pyOrS t.errorbuffer errdir)
          | fs => ResValue.err (String.intercalate ", " fs)) :=
  builder_entry_of_unique tasks outdir errdir t hmem huniq

/-- Witness for C3 at concrete inputs: one failed and one succeeded
task. -/
theorem builder_error_value_or_triple_witness :
    dictGet? (CallOutputBuilder_result
        [⟨"a", ["boom", "bust"], 1, none, none⟩,
         ⟨"b", [], 0, some "out", none⟩] (some "od") (some "ed")) "a"
      = some (ResValue.err "boom, bust")
    ∧ dictGet? (CallOutputBuilder_result
        [⟨"a", ["boom", "bust"], 1, none, none⟩,
         ⟨"b", [], 0, some "out", none⟩] (some "od") (some "ed")) "b"
      = some (ResValue.ok 0 (some "out") (some "ed")) := by
  constructor
  · exact builder_error_value_or_triple
      [⟨"a", ["boom", "bust"], 1, none, none⟩, ⟨"b", [], 0, some "out", none⟩]
      (some "od") (some "ed") ⟨"a", ["boom", "bust"], 1, none, none⟩
      (by simp)
      (by intro u hu hh
          simp only [List.mem_cons] at hu
          rcases hu with rfl | rfl | hu0
          · rfl
          · exact absurd hh (by decide)
          · exact absurd hu0 (List.not_mem_nil u))
  · exact builder_error_value_or_triple
      [⟨"a", ["boom", "bust"], 1, none, none⟩, ⟨"b", [], 0, some "out", none⟩]
      (some "od") (some "ed") ⟨"b", [], 0, some "out", none⟩
      (by simp)
      (by intro u hu hh
          simp only [List.mem_cons] at hu
          rcases hu with rfl | rfl | hu0
          · exact absurd hh (by decide)
          · rfl
          · exact absurd hu0 (List.not_mem_nil u))

/-- C8 counterexample: two successfully finished tasks for the distinct
hosts "alpha" and "beta", both with directory-routed output (no inline
buffers), map to *identical* stdout/stderr locations — the configured
directories themselves — not to distinct per-host files. -/
theorem dir_sink_shared_location_counterexample :
    dictGet? (CallOutputBuilder_result
        [⟨"alpha", [], 0, none, none⟩, ⟨"beta", [], 0, none, none⟩]
        (some "outdir") (some "errdir")) "alpha"
      = some (ResValue.ok 0 (some "outdir") (some "errdir"))
    ∧ dictGet? (CallOutputBuilder_result
        [⟨"alpha", [], 0, none, none⟩, ⟨"beta", [], 0, none, none⟩]
        (some "outdir") (some "errdir")) "beta"
      = some (ResValue.ok 0 (some "outdir") (some "errdir")) :=
  ⟨rfl, rfl⟩

/-- C8 amended: when a successfully finished task's streams were routed
to directory sinks (its inline buffers are `None`), the builders report
the configured stdout/stderr *directories* (`manager.outdir` /
`manager.errdir`) as the locations — the same value for every host; the
per-host file path is not reported (the slurp builder carries a `TODO`
to this effect). -/
theorem dir_sink_reports_configured_directory (tasks : List CTask)
    (outdir errdir : Option String) (t : CTask) (hmem : t ∈ tasks)
    (huniq : ∀ u ∈ tasks, u.host = t.host → u = t)
    (hfail : t.failures = []) (hob : t.outputbuffer = none)
    (heb : t.errorbuffer = none) :
    dictGet? (CallOutputBuilder_result tasks outdir errdir) t.host
      = some (ResValue.ok t.exitstatus outdir errdir)
    ∧ dictGet? (SlurpOutputBuilder_result tasks outdir errdir) t.host
      = some (ResValue.ok t.exitstatus outdir errdir) := by
  have h := builder_entry_of_unique tasks outdir errdir t hmem huniq
  have hentry : taskEntry outdir errdir t = ResValue.ok t.exitstatus outdir errdir := by
    unfold taskEntry
    rw [hfail, hob, heb]
    rfl
  rw [hentry] at h
  exact ⟨h, h⟩

/-- Witness for C8 amended at a concrete input. -/
theorem dir_sink_reports_configured_directory_witness :
    dictGet? (CallOutputBuilder_result [⟨"gamma", [], 0, none, none⟩]
        (some "odir") (some "edir")) "gamma"
      = some (ResValue.ok 0 (some "odir") (some "edir")) :=
  (dir_sink_reports_configured_directory [⟨"gamma", [], 0, none, none⟩]
      (some "odir") (some "edir") ⟨"gamma", [], 0, none, none⟩
      (by simp) (by intro u hu hh; simpa using hu) rfl rfl rfl).1


/-- C2: the claim says the mapping returned by `call` has key set
exactly the submitted host set.  Because the host expansion returns a
single bare triple (the C1 defect above), `call` on the
one-host list `["abc"]` iterates over the *components* of
`("abc", None, None)`: it unpacks the string `"abc"` into the bogus
triple `("a", "b", "c")`, submits a task for host `"a"` (with port
`"b"` and user `"c"`), then raises `TypeError` trying to unpack `None`
— so it never returns a mapping at all, let alone one keyed by
`{"abc"}`. -/
theorem call_key_set_bug :
    callModel defaultOptions [] [PyVal.str "abc"] (PyVal.str "uptime") (Except.ok [])
      = ([Event.addTask "a"], ApiResult.raises PyErr.typeError) :=
  rfl

/-- C6: the claim says `slurp` creates the destination root plus one
local directory per host in the list.  On `slurp(["abc"], ..., dst
"pulldir")` with `localdir` unset, `_slurp_make_local_dirs` creates
`pulldir`, then — because of the expansion bug — creates a directory
named `"a"` (the first character of the host, from unpacking the string
`"abc"`) instead of `"abc"`, and then raises `TypeError` on the `None`
component.  No directory named after the submitted host is ever
created. -/
theorem slurp_local_dirs_bug :
    slurp_make_local_dirs slurpOptions [] [PyVal.str "abc"] "pulldir"
      = ([Event.makedirs "pulldir", Event.mkdir "a"], ["a", "pulldir"],
         some PyErr.typeError)
    ∧ Event.mkdir "abc" ∉ [Event.makedirs "pulldir", Event.mkdir "a"] :=
  ⟨rfl, by decide⟩

/-- C9 counterexample: the claim says `copy` with a default `Options`
object fails with an *attribute* error.  On the host list `["ab"]` the
expansion bug intervenes first: the loop unpacks the 2-character string
`"ab"` and raises `ValueError` before any attribute of `Options` is
missed. -/
theorem copy_default_options_valueerror :
    copyModel defaultOptions [] [PyVal.str "ab"] ["file"] "dst" (Except.ok [])
      = ([], ApiResult.raises PyErr.valueError) :=
  rfl


theorem pyStr_str (s : String) : pyStr (PyVal.str s) = s := rfl

theorem getLast?_concatStr (l : List String) (c : String) :
    (l ++ [c]).getLast? = some c := by simp

theorem map_pyStr_str (l : List String) : l.map (pyStr ∘ PyVal.str) = l := by
  induction l <;> simp_all [pyStr, Function.comp]

theorem foldl_dash_o (l : List String) : ∀ acc : List String,
    (l.map PyVal.str).foldl (fun c opt => c ++ ["-o", pyStr opt]) acc
      = acc ++ l.flatMap (fun opt => ["-o", opt]) := by
  induction l with
  | nil => intro acc; simp
  | cons x l ih =>
    intro acc
    rw [List.map_cons, List.foldl_cons, ih (acc ++ ["-o", pyStr (PyVal.str x)])]
    simp [pyStr]

/-- C7: `_build_call_cmd` is a pure function of its six arguments whose
result starts with `ssh` and the host, carries `-o opt` for each extra
connection option in order (after the two built-in `-o` defaults),
carries `-l user` exactly when a (non-empty) user is given and `-p
port` exactly when a (non-empty) port is given, splices the extra
arguments, and ends with the command line as its last element when one
is given. -/
theorem build_call_cmd_spec (host : String) (port user cmdline : Option String)
    (options extra : List String) :
    build_call_cmd (.str host) (pyOfOpt port) (pyOfOpt user) (pyOfOpt cmdline)
        (.list (options.map PyVal.str)) (.list (extra.map PyVal.str))
      = Except.ok
          (["ssh", host, "-o", "NumberOfPasswordPrompts=1",
            "-o", "SendEnv=PSSH_NODENUM PSSH_HOST"]
           ++ options.flatMap (fun opt => ["-o", opt])
           ++ (match user with
               | some u => if u = "" then [] else ["-l", u]
               | none => [])
           ++ (match port with
               | some p => if p = "" then [] else ["-p", p]
               | none => [])
           ++ extra
           ++ (match cmdline with
               | some c => if c = "" then [] else [c]
               | none => []))
    ∧ (∀ l, build_call_cmd (.str host) (pyOfOpt port) (pyOfOpt user)
          (pyOfOpt cmdline) (.list (options.map PyVal.str))
          (.list (extra.map PyVal.str)) = Except.ok l →
        l.take 2 = ["ssh", host])
    ∧ (∀ c l, cmdline = some c → c ≠ "" →
        build_call_cmd (.str host) (pyOfOpt port) (pyOfOpt user)
          (pyOfOpt cmdline) (.list (options.map PyVal.str))
          (.list (extra.map PyVal.str)) = Except.ok l →
        l.getLast? = some c) := by
  have h1 : build_call_cmd (.str host) (pyOfOpt port) (pyOfOpt user) (pyOfOpt cmdline)
        (.list (options.map PyVal.str)) (.list (extra.map PyVal.str))
      = Except.ok
          (["ssh", host, "-o", "NumberOfPasswordPrompts=1",
            "-o", "SendEnv=PSSH_NODENUM PSSH_HOST"]
           ++ options.flatMap (fun opt => ["-o", opt])
           ++ (match user with
               | some u => if u = "" then [] else ["-l", u]
               | none => [])
           ++ (match port with
               | some p => if p = "" then [] else ["-p", p]
               | none => [])
           ++ extra
           ++ (match cmdline with
               | some c => if c = "" then [] else [c]
               | none => [])) := by
    cases options <;> cases user <;> cases port <;> cases extra <;> cases cmdline <;>
      simp [build_call_cmd, pyOfOpt, pyTruthy, pyIter, pyStr_str, foldl_dash_o,
            List.map_map, bind, Except.bind, pure, Except.pure, map_pyStr_str] <;>
      (repeat' split) <;> (try simp_all)
  refine ⟨h1, ?_, ?_⟩
  · intro l hl
    rw [h1] at hl
    injection hl with hl
    rw [← hl]
    rfl
  · intro c l hc hne hl
    subst hc
    rw [h1] at hl
    injection hl with hl
    rw [← hl]
    simp only [if_neg hne]
    exact getLast?_concatStr _ c


/-- Witness for C7 at a concrete input: user, port, one extra option,
one extra argument and a command line all present. -/
theorem build_call_cmd_spec_witness :
    build_call_cmd (.str "h") (pyOfOpt (some "22")) (pyOfOpt (some "u"))
        (pyOfOpt (some "date")) (.list (["X=1"].map PyVal.str))
        (.list (["-v"].map PyVal.str))
      = Except.ok ["ssh", "h", "-o", "NumberOfPasswordPrompts=1",
                   "-o", "SendEnv=PSSH_NODENUM PSSH_HOST", "-o", "X=1",
                   "-l", "u", "-p", "22", "-v", "date"]
    ∧ ["ssh", "h", "-o", "NumberOfPasswordPrompts=1",
       "-o", "SendEnv=PSSH_NODENUM PSSH_HOST", "-o", "X=1",
       "-l", "u", "-p", "22", "-v", "date"].getLast? = some "date" := by
  have h := build_call_cmd_spec "h" (some "22") (some "u") (some "date")
    ["X=1"] ["-v"]
  refine ⟨?_, ?_⟩
  · have h1 := h.1
    simpa using h1
  · exact h.2.2 "date" _ rfl (by decide) (by simpa using h.1)


/-- C4: in each of `call`, `copy` and `slurp`, when the pre-run phase
raised no Python exception, a `FatalError` out of `manager.run()` makes
the operation exit the whole process with status 1 — never returning a
(partial) mapping — while a normal engine outcome is returned to the
caller unchanged. -/
theorem fatal_abort_exits_process (o : Opts) (fs : List String)
    (hosts : List PyVal) (cmdline : PyVal) (src : List String)
    (dst srcS dstS : String) (r : Except Unit (List (String × ResValue))) :
    ((callPre o fs hosts cmdline).2 = none →
      (r = Except.error () →
        (callModel o fs hosts cmdline r).2 = ApiResult.exits 1
        ∧ ∀ m, (callModel o fs hosts cmdline r).2 ≠ ApiResult.ret m)
      ∧ (∀ m, r = Except.ok m →
          (callModel o fs hosts cmdline r).2 = ApiResult.ret m))
    ∧ ((copyPre o fs hosts src dst).2 = none →
      (r = Except.error () →
        (copyModel o fs hosts src dst r).2 = ApiResult.exits 1
        ∧ ∀ m, (copyModel o fs hosts src dst r).2 ≠ ApiResult.ret m)
      ∧ (∀ m, r = Except.ok m →
          (copyModel o fs hosts src dst r).2 = ApiResult.ret m))
    ∧ ((slurpPre o fs hosts srcS dstS).2 = none →
      (r = Except.error () →
        (slurpModel o fs hosts srcS dstS r).2 = ApiResult.exits 1
        ∧ ∀ m, (slurpModel o fs hosts srcS dstS r).2 ≠ ApiResult.ret m)
      ∧ (∀ m, r = Except.ok m →
          (slurpModel o fs hosts srcS dstS r).2 = ApiResult.ret m)) := by
  refine ⟨?_, ?_, ?_⟩
  · intro hpre
    rcases hp : callPre o fs hosts cmdline with ⟨evs, errv⟩
    rw [hp] at hpre
    simp only at hpre
    subst hpre
    constructor
    · intro hr
      subst hr
      constructor
      · simp [callModel, hp, run_with_fatal_guard]
      · intro m h
        simp [callModel, hp, run_with_fatal_guard] at h
    · intro m hr
      subst hr
      simp [callModel, hp, run_with_fatal_guard]
  · intro hpre
    rcases hp : copyPre o fs hosts src dst with ⟨evs, errv⟩
    rw [hp] at hpre
    simp only at hpre
    subst hpre
    constructor
    · intro hr
      subst hr
      constructor
      · simp [copyModel, hp, run_with_fatal_guard]
      · intro m h
        simp [copyModel, hp, run_with_fatal_guard] at h
    · intro m hr
      subst hr
      simp [copyModel, hp, run_with_fatal_guard]
  · intro hpre
    rcases hp : slurpPre o fs hosts srcS dstS with ⟨evs, errv⟩
    rw [hp] at hpre
    simp only at hpre
    subst hpre
    constructor
    · intro hr
      subst hr
      constructor
      · simp [slurpModel, hp, run_with_fatal_guard]
      · intro m h
        simp [slurpModel, hp, run_with_fatal_guard] at h
    · intro m hr
      subst hr
      simp [slurpModel, hp, run_with_fatal_guard]

/-- Witness for C4 at a concrete input on which `call`'s pre-run phase
completes: a fatal engine outcome exits with status 1 and a normal
outcome is returned. -/
theorem fatal_abort_exits_process_witness :
    (callModel defaultOptions [] goodHosts (PyVal.str "x")
        (Except.error ())).2 = ApiResult.exits 1
    ∧ (callModel defaultOptions [] goodHosts (PyVal.str "x")
        (Except.ok [])).2 = ApiResult.ret [] := by
  constructor
  · exact (((fatal_abort_exits_process defaultOptions [] goodHosts
      (PyVal.str "x") [] "d" "s" "d2" (Except.error ())).1 rfl).1 rfl).1
  · exact ((fatal_abort_exits_process defaultOptions [] goodHosts
      (PyVal.str "x") [] "d" "s" "d2" (Except.ok [])).1 rfl).2 [] rfl


/-! ## Event-trace lemmas for directory creation and ordering -/

theorem taskLoop_events (step : PyVal → PyVal → PyVal → Except PyErr (List String)) :
    ∀ items : List PyVal, ∀ e ∈ (taskLoop step items).1, ∃ h, e = Event.addTask h := by
  intro items
  induction items with
  | nil => intro e he; simp [taskLoop] at he
  | cons it rest ih =>
    intro e he
    simp only [taskLoop] at he
    cases hu : unpack3 it with
    | error err => simp only [hu] at he; simp at he
    | ok v =>
      rcases v with ⟨h, p, u⟩
      simp only [hu] at he
      cases hs : step h p u with
      | error err => simp only [hs] at he; simp at he
      | ok c =>
        rcases htl : taskLoop step rest with ⟨evs, errv⟩
        simp only [hs, htl, List.mem_cons] at he
        rcases he with rfl | he
        · exact ⟨pyStr h, rfl⟩
        · exact ih e (by rw [htl]; exact he)

theorem mkdirsStep_events (fs : List String) (v : PyVal) :
    ∀ e ∈ (mkdirsStep fs v).1, ∃ q, e = Event.makedirs q := by
  intro e he
  unfold mkdirsStep at he
  split at he
  · simp only [List.mem_singleton] at he
    exact ⟨pyStr v, he⟩
  · simp at he

theorem mkdirsStep_mem (fs : List String) (v : PyVal)
    (ht : pyTruthy v = true) (hnm : pyStr v ∉ fs) :
    Event.makedirs (pyStr v) ∈ (mkdirsStep fs v).1 := by
  simp [mkdirsStep, ht, hnm]

theorem mkdirsStep_not_create_existing (fs : List String) (v : PyVal)
    (p : String) (hp : p ∈ fs) :
    Event.makedirs p ∉ (mkdirsStep fs v).1 ∧ Event.mkdir p ∉ (mkdirsStep fs v).1 := by
  unfold mkdirsStep
  split
  · next hcond =>
    constructor
    · intro hmem
      simp only [List.mem_singleton] at hmem
      injection hmem with hpq
      exact hcond.2 (hpq ▸ hp)
    · intro hmem
      simp only [List.mem_singleton] at hmem
      exact Event.noConfusion hmem
  · simp

theorem mkdirsStep_fs_mono (fs : List String) (v : PyVal) (p : String)
    (hp : p ∈ fs) : p ∈ (mkdirsStep fs v).2 := by
  unfold mkdirsStep
  split
  · exact List.mem_cons_of_mem _ hp
  · exact hp

theorem mkdirsStep_fs_new (fs : List String) (v : PyVal) (p : String)
    (hp : p ∈ (mkdirsStep fs v).2) :
    p ∈ fs ∨ Event.makedirs p ∈ (mkdirsStep fs v).1 := by
  unfold mkdirsStep at hp ⊢
  split at hp
  · next hcond =>
    rcases List.mem_cons.mp hp with rfl | hp2
    · right; split
      · simp
      · next hc2 => exact absurd hcond hc2
    · exact Or.inl hp2
  · exact Or.inl hp

theorem ordered_split :
    ∀ (A B l1 l2 : List Event) (p : String),
      (∀ h, Event.addTask h ∉ A) → (∀ q, Event.makedirs q ∉ B) →
      A ++ B = l1 ++ Event.makedirs p :: l2 → ∀ h, Event.addTask h ∉ l1 := by
  intro A
  induction A with
  | nil =>
    intro B l1 l2 p hA hB heq h
    exfalso
    exact hB p (by rw [List.nil_append] at heq
                   rw [heq]
                   exact List.mem_append_right l1 (List.mem_cons_self _ _))
  | cons a A ih =>
    intro B l1 l2 p hA hB heq h
    cases l1 with
    | nil => simp
    | cons b l1 =>
      rw [List.cons_append, List.cons_append] at heq
      injection heq with h1 h2
      intro hmem
      rcases List.mem_cons.mp hmem with hb | hmem2
      · subst h1
        exact hA h (by rw [← hb]; exact List.mem_cons_self _ _)
      · exact ih B l1 l2 p (fun hh hin => hA hh (List.mem_cons_of_mem a hin))
          hB h2 h hmem2


theorem sldl_events (o : Opts) :
    ∀ (items : List PyVal) (fs : List String),
      ∀ e ∈ (slurpLocalDirsLoop o fs items).1, ∃ q, e = Event.mkdir q := by
  intro items
  induction items with
  | nil => intro fs e he; simp [slurpLocalDirsLoop] at he
  | cons it rest ih =>
    intro fs e he
    simp only [slurpLocalDirsLoop] at he
    cases hu : unpack3 it with
    | error err => simp only [hu] at he; simp at he
    | ok v =>
      rcases v with ⟨h, p, u⟩
      simp only [hu] at he
      cases hl : getattr o "localdir" with
      | error err => simp only [hl] at he; simp at he
      | ok ld =>
        simp only [hl] at he
        by_cases hd : (if pyTruthy ld then pyStr ld ++ "/" ++ pyStr h
                       else pyStr h) ∈ fs
        · rcases hrec : slurpLocalDirsLoop o fs rest with ⟨evs2, fs2, errv⟩
          simp only [if_pos hd, hrec] at he
          simp only [List.nil_append] at he
          exact ih fs e (by rw [hrec]; exact he)
        · rcases hrec : slurpLocalDirsLoop o
            ((if pyTruthy ld then pyStr ld ++ "/" ++ pyStr h else pyStr h) :: fs)
            rest with ⟨evs2, fs2, errv⟩
          simp only [if_neg hd, hrec, List.cons_append, List.nil_append,
                     List.mem_cons] at he
          rcases he with rfl | he
          · exact ⟨_, rfl⟩
          · exact ih _ e (by rw [hrec]; exact he)

theorem sldl_no_create_existing (o : Opts) :
    ∀ (items : List PyVal) (fs : List String) (p : String), p ∈ fs →
      Event.mkdir p ∉ (slurpLocalDirsLoop o fs items).1 := by
  intro items
  induction items with
  | nil => intro fs p hp; simp [slurpLocalDirsLoop]
  | cons it rest ih =>
    intro fs p hp
    simp only [slurpLocalDirsLoop]
    cases hu : unpack3 it with
    | error err => simp
    | ok v =>
      rcases v with ⟨h, pp, u⟩
      cases hl : getattr o "localdir" with
      | error err => simp
      | ok ld =>
        by_cases hd : (if pyTruthy ld then pyStr ld ++ "/" ++ pyStr h
                       else pyStr h) ∈ fs
        · rcases hrec : slurpLocalDirsLoop o fs rest with ⟨evs2, fs2, errv⟩
          simp only [if_pos hd, hrec, List.nil_append]
          exact fun hmem => ih fs p hp (by rw [hrec]; exact hmem)
        · rcases hrec : slurpLocalDirsLoop o
            ((if pyTruthy ld then pyStr ld ++ "/" ++ pyStr h else pyStr h) :: fs)
            rest with ⟨evs2, fs2, errv⟩
          simp only [if_neg hd, hrec, List.cons_append, List.nil_append,
                     List.mem_cons]
          intro hmem
          rcases hmem with heq | hmem2
          · injection heq with heq2
            exact hd (heq2 ▸ hp)
          · exact ih _ p (List.mem_cons_of_mem _ hp) (by rw [hrec]; exact hmem2)

theorem sldl_fs_mono (o : Opts) :
    ∀ (items : List PyVal) (fs : List String) (p : String), p ∈ fs →
      p ∈ (slurpLocalDirsLoop o fs items).2.1 := by
  intro items
  induction items with
  | nil => intro fs p hp; simpa [slurpLocalDirsLoop] using hp
  | cons it rest ih =>
    intro fs p hp
    simp only [slurpLocalDirsLoop]
    cases hu : unpack3 it with
    | error err => simpa using hp
    | ok v =>
      rcases v with ⟨h, pp, u⟩
      cases hl : getattr o "localdir" with
      | error err => simpa using hp
      | ok ld =>
        by_cases hd : (if pyTruthy ld then pyStr ld ++ "/" ++ pyStr h
                       else pyStr h) ∈ fs
        · rcases hrec : slurpLocalDirsLoop o fs rest with ⟨evs2, fs2, errv⟩
          simp only [if_pos hd, hrec]
          exact (by have := ih fs p hp; rw [hrec] at this; exact this)
        · rcases hrec : slurpLocalDirsLoop o
            ((if pyTruthy ld then pyStr ld ++ "/" ++ pyStr h else pyStr h) :: fs)
            rest with ⟨evs2, fs2, errv⟩
          simp only [if_neg hd, hrec]
          exact (by
            have := ih ((if pyTruthy ld then pyStr ld ++ "/" ++ pyStr h
                          else pyStr h) :: fs) p (List.mem_cons_of_mem _ hp)
            rw [hrec] at this
            exact this)

theorem sldl_fs_new (o : Opts) :
    ∀ (items : List PyVal) (fs : List String) (p : String),
      p ∈ (slurpLocalDirsLoop o fs items).2.1 →
      p ∈ fs ∨ Event.mkdir p ∈ (slurpLocalDirsLoop o fs items).1 := by
  intro items
  induction items with
  | nil => intro fs p hp; simp only [slurpLocalDirsLoop] at hp; exact Or.inl hp
  | cons it rest ih =>
    intro fs p hp
    simp only [slurpLocalDirsLoop] at hp ⊢
    cases hu : unpack3 it with
    | error err => simp only [hu] at hp ⊢; exact Or.inl hp
    | ok v =>
      rcases v with ⟨h, pp, u⟩
      simp only [hu] at hp ⊢
      cases hl : getattr o "localdir" with
      | error err => simp only [hl] at hp ⊢; exact Or.inl hp
      | ok ld =>
        simp only [hl] at hp ⊢
        by_cases hd : (if pyTruthy ld then pyStr ld ++ "/" ++ pyStr h
                       else pyStr h) ∈ fs
        · rcases hrec : slurpLocalDirsLoop o fs rest with ⟨evs2, fs2, errv⟩
          simp only [if_pos hd, hrec, List.nil_append] at hp ⊢
          have := ih fs p (by rw [hrec]; exact hp)
          rw [hrec] at this
          exact this
        · rcases hrec : slurpLocalDirsLoop o
            ((if pyTruthy ld then pyStr ld ++ "/" ++ pyStr h else pyStr h) :: fs)
            rest with ⟨evs2, fs2, errv⟩
          simp only [if_neg hd, hrec, List.cons_append, List.nil_append,
                     List.mem_cons] at hp ⊢
          have := ih _ p (by rw [hrec]; exact hp)
          rw [hrec] at this
          rcases this with hfs | hev
          · rcases List.mem_cons.mp hfs with rfl | hfs2
            · exact Or.inr (Or.inl rfl)
            · exact Or.inl hfs2
          · exact Or.inr (Or.inr hev)


theorem smld_no_addTask (o : Opts) (fs : List String) (hosts : List PyVal)
    (dst : String) :
    ∀ hh, Event.addTask hh ∉ (slurp_make_local_dirs o fs hosts dst).1 := by
  intro hh hmem
  unfold slurp_make_local_dirs at hmem
  by_cases hdst : dst ∈ fs
  · simp only [if_pos hdst] at hmem
    cases hx : pyExpandIter hosts with
    | error e => simp only [hx] at hmem; simp at hmem
    | ok items =>
      rcases hrec : slurpLocalDirsLoop o fs items with ⟨evs, fs2, errv⟩
      simp only [hx, hrec, List.nil_append] at hmem
      rcases sldl_events o items fs _ (by rw [hrec]; exact hmem) with ⟨q, hq⟩
      exact Event.noConfusion hq
  · simp only [if_neg hdst] at hmem
    cases hx : pyExpandIter hosts with
    | error e =>
      simp only [hx, List.mem_singleton] at hmem
      exact Event.noConfusion hmem
    | ok items =>
      rcases hrec : slurpLocalDirsLoop o (dst :: fs) items with ⟨evs, fs2, errv⟩
      simp only [hx, hrec, List.singleton_append, List.mem_cons] at hmem
      rcases hmem with heq | hmem2
      · exact Event.noConfusion heq
      · rcases sldl_events o items (dst :: fs) _ (by rw [hrec]; exact hmem2) with ⟨q, hq⟩
        exact Event.noConfusion hq

theorem smld_no_create_existing (o : Opts) (fs : List String) (hosts : List PyVal)
    (dst : String) (p : String) (hp : p ∈ fs) :
    ¬ createsDir (slurp_make_local_dirs o fs hosts dst).1 p := by
  intro hcd
  unfold slurp_make_local_dirs at hcd
  by_cases hdst : dst ∈ fs
  · simp only [if_pos hdst] at hcd
    cases hx : pyExpandIter hosts with
    | error e => simp only [hx] at hcd; rcases hcd with h | h <;> simp at h
    | ok items =>
      rcases hrec : slurpLocalDirsLoop o fs items with ⟨evs, fs2, errv⟩
      simp only [hx, hrec, List.nil_append, createsDir] at hcd
      rcases hcd with hmem | hmem
      · rcases sldl_events o items fs _ (by rw [hrec]; exact hmem) with ⟨q, hq⟩
        exact Event.noConfusion hq
      · exact sldl_no_create_existing o items fs p hp (by rw [hrec]; exact hmem)
  · simp only [if_neg hdst] at hcd
    cases hx : pyExpandIter hosts with
    | error e =>
      simp only [hx, createsDir, List.mem_singleton] at hcd
      rcases hcd with heq | heq
      · injection heq with heq2; exact hdst (heq2 ▸ hp)
      · exact Event.noConfusion heq
    | ok items =>
      rcases hrec : slurpLocalDirsLoop o (dst :: fs) items with ⟨evs, fs2, errv⟩
      simp only [hx, hrec, List.singleton_append, createsDir, List.mem_cons] at hcd
      rcases hcd with (heq | hmem) | (heq | hmem)
      · injection heq with heq2; exact hdst (heq2 ▸ hp)
      · rcases sldl_events o items (dst :: fs) _ (by rw [hrec]; exact hmem) with ⟨q, hq⟩
        exact Event.noConfusion hq
      · exact Event.noConfusion heq
      · exact sldl_no_create_existing o items (dst :: fs) p
          (List.mem_cons_of_mem _ hp) (by rw [hrec]; exact hmem)

theorem smld_fs_mono (o : Opts) (fs : List String) (hosts : List PyVal)
    (dst : String) (p : String) (hp : p ∈ fs) :
    p ∈ (slurp_make_local_dirs o fs hosts dst).2.1 := by
  unfold slurp_make_local_dirs
  by_cases hdst : dst ∈ fs
  · simp only [if_pos hdst]
    cases hx : pyExpandIter hosts with
    | error e => simpa using hp
    | ok items =>
      rcases hrec : slurpLocalDirsLoop o fs items with ⟨evs, fs2, errv⟩
      simp only [hrec]
      have := sldl_fs_mono o items fs p hp
      rw [hrec] at this
      exact this
  · simp only [if_neg hdst]
    cases hx : pyExpandIter hosts with
    | error e => simpa using List.mem_cons_of_mem dst hp
    | ok items =>
      rcases hrec : slurpLocalDirsLoop o (dst :: fs) items with ⟨evs, fs2, errv⟩
      simp only [hrec]
      have := sldl_fs_mono o items (dst :: fs) p (List.mem_cons_of_mem _ hp)
      rw [hrec] at this
      exact this

theorem smld_fs_new (o : Opts) (fs : List String) (hosts : List PyVal)
    (dst : String) (p : String)
    (hp : p ∈ (slurp_make_local_dirs o fs hosts dst).2.1) :
    p ∈ fs ∨ createsDir (slurp_make_local_dirs o fs hosts dst).1 p := by
  unfold slurp_make_local_dirs at hp ⊢
  by_cases hdst : dst ∈ fs
  · simp only [if_pos hdst] at hp ⊢
    cases hx : pyExpandIter hosts with
    | error e => simp only [hx] at hp ⊢; exact Or.inl hp
    | ok items =>
      rcases hrec : slurpLocalDirsLoop o fs items with ⟨evs, fs2, errv⟩
      simp only [hx, hrec, List.nil_append] at hp ⊢
      have := sldl_fs_new o items fs p (by rw [hrec]; exact hp)
      rw [hrec] at this
      rcases this with hin | hev
      · exact Or.inl hin
      · exact Or.inr (Or.inr hev)
  · simp only [if_neg hdst] at hp ⊢
    cases hx : pyExpandIter hosts with
    | error e =>
      simp only [hx, createsDir, List.mem_singleton] at hp ⊢
      rcases List.mem_cons.mp hp with rfl | hp2
      · exact Or.inr (Or.inl rfl)
      · exact Or.inl hp2
    | ok items =>
      rcases hrec : slurpLocalDirsLoop o (dst :: fs) items with ⟨evs, fs2, errv⟩
      simp only [hx, hrec, List.singleton_append, createsDir, List.mem_cons] at hp ⊢
      have := sldl_fs_new o items (dst :: fs) p (by rw [hrec]; exact hp)
      rw [hrec] at this
      rcases this with hin | hev
      · rcases List.mem_cons.mp hin with rfl | hp2
        · exact Or.inr (Or.inl (Or.inl rfl))
        · exact Or.inl hp2
      · exact Or.inr (Or.inr (Or.inr hev))


theorem stdPre_split (o : Opts) (fs : List String) (hosts : List PyVal)
    (step : PyVal → PyVal → PyVal → Except PyErr (List String)) :
    ∃ A B, (stdPre o fs hosts step).1 = A ++ B
      ∧ (∀ hh, Event.addTask hh ∉ A)
      ∧ (∀ q, Event.makedirs q ∉ B) ∧ (∀ q, Event.mkdir q ∉ B) := by
  cases ho : getattr o "outdir" with
  | error e =>
    exact ⟨[], [], by simp [stdPre, ho], by simp, by simp, by simp⟩
  | ok od =>
    rcases h1 : mkdirsStep fs od with ⟨evs1, fs1⟩
    have hA1 : ∀ hh, Event.addTask hh ∉ evs1 := by
      intro hh hmem
      rcases mkdirsStep_events fs od _ (by rw [h1]; exact hmem) with ⟨q, hq⟩
      exact Event.noConfusion hq
    cases he : getattr o "errdir" with
    | error e =>
      exact ⟨evs1, [], by simp [stdPre, ho, h1, he], hA1, by simp, by simp⟩
    | ok ed =>
      rcases h2 : mkdirsStep fs1 ed with ⟨evs2, fs2⟩
      have hA2 : ∀ hh, Event.addTask hh ∉ evs2 := by
        intro hh hmem
        rcases mkdirsStep_events fs1 ed _ (by rw [h2]; exact hmem) with ⟨q, hq⟩
        exact Event.noConfusion hq
      have hA12 : ∀ hh, Event.addTask hh ∉ evs1 ++ evs2 := by
        intro hh hmem
        rcases List.mem_append.mp hmem with hm | hm
        · exact hA1 hh hm
        · exact hA2 hh hm
      cases hm : managerCtorReads o with
      | error e =>
        exact ⟨evs1 ++ evs2, [], by simp [stdPre, ho, h1, he, h2, hm],
               hA12, by simp, by simp⟩
      | ok u =>
        cases hx : pyExpandIter hosts with
        | error e =>
          exact ⟨evs1 ++ evs2, [], by simp [stdPre, ho, h1, he, h2, hm, hx],
                 hA12, by simp, by simp⟩
        | ok items =>
          rcases h3 : taskLoop step items with ⟨evs3, errv⟩
          refine ⟨evs1 ++ evs2, evs3, by simp [stdPre, ho, h1, he, h2, hm, hx, h3],
                  hA12, ?_, ?_⟩
          · intro q hmem
            rcases taskLoop_events step items _ (by rw [h3]; exact hmem) with ⟨hh, hq⟩
            exact Event.noConfusion hq
          · intro q hmem
            rcases taskLoop_events step items _ (by rw [h3]; exact hmem) with ⟨hh, hq⟩
            exact Event.noConfusion hq

theorem dirBehavior_mk (evs1 evs2 evs3 : List Event) (fs : List String)
    (od ed : PyVal)
    (hA12 : ∀ hh, Event.addTask hh ∉ evs1 ++ evs2)
    (hB1 : ∀ q, Event.makedirs q ∉ evs3) (hB2 : ∀ q, Event.mkdir q ∉ evs3)
    (hmk1 : pyTruthy od = true → pyStr od ∉ fs →
      Event.makedirs (pyStr od) ∈ evs1 ++ evs2)
    (hmk2 : pyTruthy ed = true → pyStr ed ∉ fs →
      Event.makedirs (pyStr ed) ∈ evs1 ++ evs2)
    (hex : ∀ p ∈ fs, Event.makedirs p ∉ evs1 ++ evs2
      ∧ Event.mkdir p ∉ evs1 ++ evs2) :
    dirBehavior (evs1 ++ evs2 ++ evs3) fs od ed := by
  refine ⟨?_, ?_, ?_, ?_⟩
  · intro ht hnm
    exact Or.inl (List.mem_append_left _ (hmk1 ht hnm))
  · intro ht hnm
    exact Or.inl (List.mem_append_left _ (hmk2 ht hnm))
  · intro p hp hcd
    rcases hcd with hmd | hmd <;> rcases List.mem_append.mp hmd with hm | hm
    · exact (hex p hp).1 hm
    · exact hB1 p hm
    · exact (hex p hp).2 hm
    · exact hB2 p hm
  · intro l1 p l2 heq
    exact ordered_split (evs1 ++ evs2) evs3 l1 l2 p hA12 hB1 heq

theorem stdPre_dirBehavior (o : Opts) (fs : List String) (hosts : List PyVal)
    (step : PyVal → PyVal → PyVal → Except PyErr (List String)) (od ed : PyVal)
    (hod : getattr o "outdir" = Except.ok od)
    (hed : getattr o "errdir" = Except.ok ed) :
    dirBehavior (stdPre o fs hosts step).1 fs od ed := by
  rcases h1 : mkdirsStep fs od with ⟨evs1, fs1⟩
  rcases h2 : mkdirsStep fs1 ed with ⟨evs2, fs2⟩
  have hA1 : ∀ hh, Event.addTask hh ∉ evs1 := by
    intro hh hmem
    rcases mkdirsStep_events fs od _ (by rw [h1]; exact hmem) with ⟨q, hq⟩
    exact Event.noConfusion hq
  have hA2 : ∀ hh, Event.addTask hh ∉ evs2 := by
    intro hh hmem
    rcases mkdirsStep_events fs1 ed _ (by rw [h2]; exact hmem) with ⟨q, hq⟩
    exact Event.noConfusion hq
  have hA12 : ∀ hh, Event.addTask hh ∉ evs1 ++ evs2 := by
    intro hh hmem
    rcases List.mem_append.mp hmem with hm | hm
    · exact hA1 hh hm
    · exact hA2 hh hm
  have hmk1 : pyTruthy od = true → pyStr od ∉ fs →
      Event.makedirs (pyStr od) ∈ evs1 ++ evs2 := by
    intro ht hnm
    have := mkdirsStep_mem fs od ht hnm
    rw [h1] at this
    exact List.mem_append_left _ this
  have hmk2 : pyTruthy ed = true → pyStr ed ∉ fs →
      Event.makedirs (pyStr ed) ∈ evs1 ++ evs2 := by
    intro ht hnm
    by_cases hm1 : pyStr ed ∈ fs1
    · have hnew := mkdirsStep_fs_new fs od (pyStr ed)
      rw [h1] at hnew
      rcases hnew hm1 with hin | hev
      · exact absurd hin hnm
      · exact List.mem_append_left _ hev
    · have := mkdirsStep_mem fs1 ed ht hm1
      rw [h2] at this
      exact List.mem_append_right _ this
  have hex : ∀ p ∈ fs, Event.makedirs p ∉ evs1 ++ evs2
      ∧ Event.mkdir p ∉ evs1 ++ evs2 := by
    intro p hp
    have he1 := mkdirsStep_not_create_existing fs od p hp
    rw [h1] at he1
    have hp1 : p ∈ fs1 := by
      have := mkdirsStep_fs_mono fs od p hp
      rwa [h1] at this
    have he2 := mkdirsStep_not_create_existing fs1 ed p hp1
    rw [h2] at he2
    constructor
    · intro hmem
      rcases List.mem_append.mp hmem with hm | hm
      · exact he1.1 hm
      · exact he2.1 hm
    · intro hmem
      rcases List.mem_append.mp hmem with hm | hm
      · exact he1.2 hm
      · exact he2.2 hm
  cases hm : managerCtorReads o with
  | error e =>
    have htr : (stdPre o fs hosts step).1 = evs1 ++ evs2 := by
      simp [stdPre, hod, h1, hed, h2, hm]
    rw [htr]
    have := dirBehavior_mk evs1 evs2 [] fs od ed hA12 (by simp) (by simp)
      hmk1 hmk2 hex
    rwa [List.append_nil] at this
  | ok u =>
    cases hx : pyExpandIter hosts with
    | error e =>
      have htr : (stdPre o fs hosts step).1 = evs1 ++ evs2 := by
        simp [stdPre, hod, h1, hed, h2, hm, hx]
      rw [htr]
      have := dirBehavior_mk evs1 evs2 [] fs od ed hA12 (by simp) (by simp)
        hmk1 hmk2 hex
      rwa [List.append_nil] at this
    | ok items =>
      rcases h3 : taskLoop step items with ⟨evs3, errv⟩
      have htr : (stdPre o fs hosts step).1 = evs1 ++ evs2 ++ evs3 := by
        simp [stdPre, hod, h1, hed, h2, hm, hx, h3]
      rw [htr]
      refine dirBehavior_mk evs1 evs2 evs3 fs od ed hA12 ?_ ?_ hmk1 hmk2 hex
      · intro q hmem
        rcases taskLoop_events step items _ (by rw [h3]; exact hmem) with ⟨hh, hq⟩
        exact Event.noConfusion hq
      · intro q hmem
        rcases taskLoop_events step items _ (by rw [h3]; exact hmem) with ⟨hh, hq⟩
        exact Event.noConfusion hq


theorem slurpPre_dirBehavior (o : Opts) (fs : List String) (hosts : List PyVal)
    (srcS dstS : String) (od ed : PyVal)
    (hod : getattr o "outdir" = Except.ok od)
    (hed : getattr o "errdir" = Except.ok ed)
    (hld : (slurp_make_local_dirs o fs hosts dstS).2.2 = none) :
    dirBehavior (slurpPre o fs hosts srcS dstS).1 fs od ed := by
  rcases h0 : slurp_make_local_dirs o fs hosts dstS with ⟨evs0, fs0, err0⟩
  have herr : err0 = none := by rw [h0] at hld; exact hld
  subst herr
  have htr : (slurpPre o fs hosts srcS dstS).1
      = evs0 ++ (stdPre o fs0 hosts (slurpIterStep o srcS dstS)).1 := by
    rcases hstd : stdPre o fs0 hosts (slurpIterStep o srcS dstS) with ⟨evs, errv⟩
    simp [slurpPre, h0, hstd]
  rw [htr]
  obtain ⟨hdb1, hdb2, hdb3, hdb4⟩ :=
    stdPre_dirBehavior o fs0 hosts (slurpIterStep o srcS dstS) od ed hod hed
  have h0noadd : ∀ hh, Event.addTask hh ∉ evs0 := by
    intro hh
    have := smld_no_addTask o fs hosts dstS hh
    rwa [h0] at this
  have h0exist : ∀ p ∈ fs, ¬ createsDir evs0 p := by
    intro p hp
    have := smld_no_create_existing o fs hosts dstS p hp
    rwa [h0] at this
  have h0new : ∀ p, p ∈ fs0 → p ∈ fs ∨ createsDir evs0 p := by
    intro p hp
    have := smld_fs_new o fs hosts dstS p (by rw [h0]; exact hp)
    rwa [h0] at this
  have hmono : ∀ p ∈ fs, p ∈ fs0 := by
    intro p hp
    have := smld_fs_mono o fs hosts dstS p hp
    rwa [h0] at this
  refine ⟨?_, ?_, ?_, ?_⟩
  · intro ht hnm
    by_cases h00 : pyStr od ∈ fs0
    · rcases h0new _ h00 with hin | hcd
      · exact absurd hin hnm
      · rcases hcd with hm | hm
        · exact Or.inl (List.mem_append_left _ hm)
        · exact Or.inr (List.mem_append_left _ hm)
    · rcases hdb1 ht h00 with hm | hm
      · exact Or.inl (List.mem_append_right _ hm)
      · exact Or.inr (List.mem_append_right _ hm)
  · intro ht hnm
    by_cases h00 : pyStr ed ∈ fs0
    · rcases h0new _ h00 with hin | hcd
      · exact absurd hin hnm
      · rcases hcd with hm | hm
        · exact Or.inl (List.mem_append_left _ hm)
        · exact Or.inr (List.mem_append_left _ hm)
    · rcases hdb2 ht h00 with hm | hm
      · exact Or.inl (List.mem_append_right _ hm)
      · exact Or.inr (List.mem_append_right _ hm)
  · intro p hp hcd
    rcases hcd with hm | hm <;> rcases List.mem_append.mp hm with hm2 | hm2
    · exact h0exist p hp (Or.inl hm2)
    · exact hdb3 p (hmono p hp) (Or.inl hm2)
    · exact h0exist p hp (Or.inr hm2)
    · exact hdb3 p (hmono p hp) (Or.inr hm2)
  · obtain ⟨A, B, hAB, hA, hBmk, hBmd⟩ :=
      stdPre_split o fs0 hosts (slurpIterStep o srcS dstS)
    rw [hAB]
    intro l1 p l2 heq
    refine ordered_split (evs0 ++ A) B l1 l2 p ?_ hBmk ?_
    · intro hh hmem
      rcases List.mem_append.mp hmem with hm2 | hm2
      · exact h0noadd hh hm2
      · exact hA hh hm2
    · rw [← heq, List.append_assoc]

/-- C5: in every `call` and `copy` invocation (and in every `slurp`
invocation whose local-directory pass completed), a configured,
not-yet-existing stdout/stderr output directory is created at operation
start; already-existing paths are never created again; and every
directory creation precedes every task submission in the event
trace. -/
theorem output_dirs_created_before_tasks (o : Opts) (fs : List String)
    (hosts : List PyVal) (cmdline : PyVal) (src : List String)
    (dst srcS dstS : String) (od ed : PyVal)
    (hod : getattr o "outdir" = Except.ok od)
    (hed : getattr o "errdir" = Except.ok ed) :
    dirBehavior (callPre o fs hosts cmdline).1 fs od ed
    ∧ dirBehavior (copyPre o fs hosts src dst).1 fs od ed
    ∧ ((slurp_make_local_dirs o fs hosts dstS).2.2 = none →
        dirBehavior (slurpPre o fs hosts srcS dstS).1 fs od ed) := by
  refine ⟨?_, ?_, ?_⟩
  · exact stdPre_dirBehavior o fs hosts (callIterStep o cmdline) od ed hod hed
  · exact stdPre_dirBehavior o fs hosts (copyIterStep o src dst) od ed hod hed
  · intro hld
    exact slurpPre_dirBehavior o fs hosts srcS dstS od ed hod hed hld

/-- Witness for C5 at concrete inputs: with `outdir = "odir"` and
`errdir = "edir"` configured and absent, the `call` trace creates
`odir`, and the `slurp` trace (localdir pass succeeding on a fully
well-formed host list) creates `edir`. -/
theorem output_dirs_created_before_tasks_witness :
    createsDir (callPre outOptions [] [PyVal.str "abc"] (PyVal.str "x")).1 "odir"
    ∧ createsDir (slurpPre outOptions [] goodHosts "s" "pull").1 "edir" := by
  have h := output_dirs_created_before_tasks outOptions [] [PyVal.str "abc"]
    (PyVal.str "x") [] "d" "s" "pull" (PyVal.str "odir") (PyVal.str "edir")
    rfl rfl
  have h2 := output_dirs_created_before_tasks outOptions [] goodHosts
    (PyVal.str "x") [] "d" "s" "pull" (PyVal.str "odir") (PyVal.str "edir")
    rfl rfl
  constructor
  · exact h.1.1 rfl (by simp)
  · exact (h2.2.2 rfl).2.1 rfl (by simp)


/-! ## Which exceptions each phase can raise -/

theorem unpack3_error_kind (x : PyVal) (e : PyErr) (h : unpack3 x = Except.error e) :
    e ≠ PyErr.attributeError := by
  cases x with
  | str s =>
    rcases hd : s.data with _ | ⟨a, _ | ⟨b, _ | ⟨c, _ | ⟨d, l⟩⟩⟩⟩ <;>
      simp only [unpack3, hd] at h <;>
      first
      | exact Except.noConfusion h
      | (injection h with h2; subst h2; decide)
  | none => injection h with h2; subst h2; decide
  | bool b => injection h with h2; subst h2; decide
  | int n => injection h with h2; subst h2; decide
  | tuple vs =>
    rcases vs with _ | ⟨a, _ | ⟨b, _ | ⟨c, _ | ⟨d, l⟩⟩⟩⟩ <;>
      first
      | exact Except.noConfusion h
      | (injection h with h2; subst h2; decide)
  | list vs =>
    rcases vs with _ | ⟨a, _ | ⟨b, _ | ⟨c, _ | ⟨d, l⟩⟩⟩⟩ <;>
      first
      | exact Except.noConfusion h
      | (injection h with h2; subst h2; decide)

theorem expand_error_kind (hosts : List PyVal) (e : PyErr)
    (h : expand_host_port_user hosts = Except.error e) : e = PyErr.typeError := by
  rcases hosts with _ | ⟨v, rest⟩
  · exact Except.noConfusion h
  · cases v with
    | str s => exact Except.noConfusion h
    | none => injection h with h2; exact h2.symm
    | bool b => injection h with h2; exact h2.symm
    | int n => injection h with h2; exact h2.symm
    | tuple vs =>
      rcases vs with _ | ⟨a, _ | ⟨b, _ | ⟨c, l⟩⟩⟩ <;> exact Except.noConfusion h
    | list vs =>
      rcases vs with _ | ⟨a, _ | ⟨b, _ | ⟨c, l⟩⟩⟩ <;> exact Except.noConfusion h

theorem pyIter_error_kind (v : PyVal) (e : PyErr)
    (h : pyIter v = Except.error e) : e = PyErr.typeError := by
  cases v with
  | str s => exact Except.noConfusion h
  | tuple vs => exact Except.noConfusion h
  | list vs => exact Except.noConfusion h
  | none => injection h with h2; exact h2.symm
  | bool b => injection h with h2; exact h2.symm
  | int n => injection h with h2; exact h2.symm

theorem pyExpandIter_error_kind (hosts : List PyVal) (e : PyErr)
    (h : pyExpandIter hosts = Except.error e) : e = PyErr.typeError := by
  unfold pyExpandIter at h
  cases hexp : expand_host_port_user hosts with
  | error e2 =>
    rw [hexp] at h
    simp only [bind, Except.bind] at h
    injection h with h2
    exact h2.symm.trans (expand_error_kind hosts e2 hexp)
  | ok v =>
    rw [hexp] at h
    simp only [bind, Except.bind] at h
    exact pyIter_error_kind v e h

theorem taskLoop_no_attrerror (step : PyVal → PyVal → PyVal → Except PyErr (List String))
    (hstep : ∀ h p u, ∃ c, step h p u = Except.ok c) :
    ∀ items : List PyVal, (taskLoop step items).2 ≠ some PyErr.attributeError := by
  intro items
  induction items with
  | nil => simp [taskLoop]
  | cons it rest ih =>
    simp only [taskLoop]
    cases hu : unpack3 it with
    | error e =>
      simp only [hu]
      intro hc
      injection hc with hc2
      exact unpack3_error_kind it e hu hc2
    | ok v =>
      rcases v with ⟨h, p, u⟩
      rcases hstep h p u with ⟨c, hc⟩
      rcases htl : taskLoop step rest with ⟨evs, errv⟩
      simp only [hu, hc, htl]
      intro hc2
      rw [htl] at ih
      exact ih hc2

theorem callIterStep_default_ok (cmdline h p u : PyVal) :
    ∃ c, callIterStep defaultOptions cmdline h p u = Except.ok c :=
  ⟨_, rfl⟩

/-- Helper: `call` with the unmodified default `Options` never raises an
`AttributeError` in its pre-run phase: every attribute it reads is
defined on `Options`; its failures (on ill-formed host lists) are the
expansion bug's `TypeError`/`ValueError`. -/
theorem callPre_default_no_attrerror (fs : List String) (hosts : List PyVal)
    (cmdline : PyVal) :
    (callPre defaultOptions fs hosts cmdline).2 ≠ some PyErr.attributeError := by
  unfold callPre stdPre
  rw [show getattr defaultOptions "outdir" = Except.ok PyVal.none from rfl,
      show getattr defaultOptions "errdir" = Except.ok PyVal.none from rfl,
      show managerCtorReads defaultOptions = Except.ok () from rfl]
  have hmk : mkdirsStep fs PyVal.none = ([], fs) := by
    simp [mkdirsStep, pyTruthy]
  simp only [hmk]
  cases hx : pyExpandIter hosts with
  | error e =>
    simp only
    intro hc
    injection hc with hc2
    subst hc2
    exact PyErr.noConfusion (pyExpandIter_error_kind hosts PyErr.attributeError hx)
  | ok items =>
    rcases htl : taskLoop (callIterStep defaultOptions cmdline) items with ⟨evs, errv⟩
    simp only [htl]
    intro hc
    have := taskLoop_no_attrerror (callIterStep defaultOptions cmdline)
      (callIterStep_default_ok cmdline) items
    rw [htl] at this
    exact this hc


/-- C9 amended: with the unmodified default `Options` object, whenever
the first element produced by the host expansion unpacks as a
(host, port, user) triple, `copy` raises `AttributeError` (reading the
undefined `opts.options` in `_build_copy_cmd`) and `slurp` raises
`AttributeError` (reading the undefined `opts.localdir` in
`_slurp_make_local_dirs`), in both cases before any task is submitted;
`call`'s pre-run phase, by contrast, never raises an `AttributeError`
with default options.  The failure is not universal: on the host list
`[()]` the (buggy) expansion yields the empty tuple, the per-host loops
run zero times, no undefined attribute is ever read, and both `copy`
and `slurp` complete their pre-run phase without any exception and
return the engine's mapping (the last two conjuncts). -/
theorem default_options_copy_slurp_attrerror (fs : List String) (hosts : List PyVal)
    (src : List String) (dst srcS dstS : String) (cmdline : PyVal)
    (it : PyVal) (rest : List PyVal) (h p u : PyVal)
    (hiter : pyExpandIter hosts = Except.ok (it :: rest))
    (hun : unpack3 it = Except.ok (h, p, u)) :
    copyPre defaultOptions fs hosts src dst = ([], some PyErr.attributeError)
    ∧ (slurp_make_local_dirs defaultOptions fs hosts dstS).2.2
        = some PyErr.attributeError
    ∧ (slurpPre defaultOptions fs hosts srcS dstS).2 = some PyErr.attributeError
    ∧ (∀ hh, Event.addTask hh ∉ (slurpPre defaultOptions fs hosts srcS dstS).1)
    ∧ (callPre defaultOptions fs hosts cmdline).2 ≠ some PyErr.attributeError
    ∧ copyModel defaultOptions [] [PyVal.tuple []] ["f"] "d" (Except.ok [])
        = ([], ApiResult.ret [])
    ∧ slurpModel defaultOptions [] [PyVal.tuple []] "s" "pull" (Except.ok [])
        = ([Event.makedirs "pull"], ApiResult.ret []) := by
  have hmk : mkdirsStep fs PyVal.none = ([], fs) := by
    simp [mkdirsStep, pyTruthy]
  have hstep : copyIterStep defaultOptions src dst h p u
      = Except.error PyErr.attributeError := rfl
  have htl : taskLoop (copyIterStep defaultOptions src dst) (it :: rest)
      = ([], some PyErr.attributeError) := by
    simp only [taskLoop, hun, hstep]
  have hcopy : copyPre defaultOptions fs hosts src dst
      = ([], some PyErr.attributeError) := by
    unfold copyPre stdPre
    rw [show getattr defaultOptions "outdir" = Except.ok PyVal.none from rfl,
        show getattr defaultOptions "errdir" = Except.ok PyVal.none from rfl,
        show managerCtorReads defaultOptions = Except.ok () from rfl]
    simp only [hmk, hiter, htl]
    simp
  have hloc : getattr defaultOptions "localdir"
      = Except.error PyErr.attributeError := rfl
  have hsldl : ∀ fs0 : List String,
      (slurpLocalDirsLoop defaultOptions fs0 (it :: rest)).2.2
        = some PyErr.attributeError := by
    intro fs0
    simp only [slurpLocalDirsLoop, hun, hloc]
  have hsmld : (slurp_make_local_dirs defaultOptions fs hosts dstS).2.2
      = some PyErr.attributeError := by
    unfold slurp_make_local_dirs
    by_cases hdst : dstS ∈ fs
    · simp only [if_pos hdst, hiter]
      rcases hrec : slurpLocalDirsLoop defaultOptions fs (it :: rest)
        with ⟨evs, fs2, errv⟩
      have := hsldl fs
      rw [hrec] at this
      simp only [hrec]
      exact this
    · simp only [if_neg hdst, hiter]
      rcases hrec : slurpLocalDirsLoop defaultOptions (dstS :: fs) (it :: rest)
        with ⟨evs, fs2, errv⟩
      have := hsldl (dstS :: fs)
      rw [hrec] at this
      simp only [hrec]
      exact this
  rcases h0 : slurp_make_local_dirs defaultOptions fs hosts dstS
    with ⟨evs0, fs0, err0⟩
  have herr : err0 = some PyErr.attributeError := by
    rw [h0] at hsmld
    exact hsmld
  subst herr
  have hslurp : slurpPre defaultOptions fs hosts srcS dstS
      = (evs0, some PyErr.attributeError) := by
    simp [slurpPre, h0]
  refine ⟨hcopy, rfl, ?_, ?_, callPre_default_no_attrerror fs hosts cmdline,
    rfl, rfl⟩
  · rw [hslurp]
  · intro hh
    rw [hslurp]
    have := smld_no_addTask defaultOptions fs hosts dstS hh
    rw [h0] at this
    exact this

/-- Witness for C9 amended at a concrete input: the host list
`["abc"]`, whose first expanded element (the string `"abc"`) unpacks
into three one-character strings. -/
theorem default_options_copy_slurp_attrerror_witness :
    copyPre defaultOptions [] [PyVal.str "abc"] ["f"] "d"
      = ([], some PyErr.attributeError)
    ∧ (slurpPre defaultOptions [] [PyVal.str "abc"] "s" "pull").2
      = some PyErr.attributeError
    ∧ (callPre defaultOptions [] [PyVal.str "abc"]
        (PyVal.str "x")).2 ≠ some PyErr.attributeError := by
  have h := default_options_copy_slurp_attrerror [] [PyVal.str "abc"] ["f"] "d" "s"
    "pull" (PyVal.str "x") (PyVal.str "abc") [PyVal.none, PyVal.none]
    (PyVal.str "a") (PyVal.str "b") (PyVal.str "c") rfl rfl
  exact ⟨h.1, h.2.2.1, h.2.2.2.2.1⟩

end Pssh
